import Mathlib

/-!
Verification development for the Docuware Node helper (src/docuware.ts).

The TypeScript source is shallowly embedded below.  Strings that are
inspected character by character are modelled as `List Char`; JavaScript
objects whose properties are assigned dynamically are modelled as
insertion-ordered association lists; `undefined`/`null` results and
uncaught exceptions are modelled with `Option`.
-/

namespace Docuware

/-! ## HTTP retry wrapper (docuware.ts lines 190-248)

`getRequest` and `postRequest` share the same control flow: up to
`GLOBALS.retryMaxCount` attempts, each attempt issues one HTTP call;
a status-200 response returns the body; any other status sleeps for the
backoff delay and retries; a thrown transport exception is caught,
logged and makes the function return `null` at once.  Exhausting the
loop returns `undefined` (getRequest falls off the loop) or `null`
(postRequest); both are modelled by `.exhausted`.

One HTTP attempt either yields a response (status + body) or throws. -/
inductive Outcome (D : Type) where
  | resp (status : Nat) (data : D)
  | exn
  deriving DecidableEq

/-- Result of the whole retry loop: the first 200 body, the caught-and-logged
exception path (immediate `null`), or loop exhaustion (`undefined`/`null`). -/
inductive ReqResult (D : Type) where
  | success (data : D)
  | exnNull
  | exhausted
  deriving DecidableEq

/-- Observable statistics of one run of the retry loop: its final result,
how many HTTP calls were issued and how many backoff delays were slept. -/
structure RunStats (D : Type) where
  outcome : ReqResult D
  calls : Nat
  delays : Nat
  deriving DecidableEq

/-- The retry loop of getRequest/postRequest.  `f i` is the outcome of the
HTTP call made on loop iteration `i`; `fuel` is the number of iterations
left (initially `GLOBALS.retryMaxCount`); `idx` is the current iteration. -/
def retryGo {D : Type} (f : Nat → Outcome D) : Nat → Nat → RunStats D
  | 0, _ => ⟨.exhausted, 0, 0⟩
  | fuel + 1, idx =>
    match f idx with
    | .exn => ⟨.exnNull, 1, 0⟩
    | .resp s d =>
      if s = 200 then ⟨.success d, 1, 0⟩
      else
        let r := retryGo f fuel (idx + 1)
        ⟨r.outcome, r.calls + 1, r.delays + 1⟩

/-- Model of one call to `getRequest`/`postRequest` with retry bound
`max = GLOBALS.retryMaxCount`, against a sequence `f` of HTTP outcomes. -/
def requestRetryRun {D : Type} (max : Nat) (f : Nat → Outcome D) : RunStats D :=
  retryGo f max 0

/-- The first `n` outcomes starting at `idx` are responses with status other
than 200 (the only case in which the source loop keeps going). -/
def NonOkPrefix {D : Type} (f : Nat → Outcome D) (idx n : Nat) : Prop :=
  ∀ j, j < n → ∃ s e, f (idx + j) = .resp s e ∧ s ≠ 200

/-! ## JavaScript object and string primitives

A JavaScript object whose properties are assigned one by one is modelled
as an insertion-ordered association list: assigning to an existing key
updates the value in place, assigning to a new key appends it. -/

def objInsert {κ ν : Type} [DecidableEq κ] (obj : List (κ × ν)) (k : κ) (v : ν) :
    List (κ × ν) :=
  if obj.any (fun p => decide (p.1 = k)) then
    obj.map (fun p => if p.1 = k then (k, v) else p)
  else obj ++ [(k, v)]

/-- Property read `obj[k]` with a default for an absent key. -/
def assocGetD {κ ν : Type} [DecidableEq κ] (obj : List (κ × ν)) (k : κ) (d : ν) : ν :=
  match obj with
  | [] => d
  | p :: rest => if p.1 = k then p.2 else assocGetD rest k d

/-- Property read `obj[k]`, `none` when the key is absent (JS `undefined`). -/
def assocGet? {κ ν : Type} [DecidableEq κ] (obj : List (κ × ν)) (k : κ) : Option ν :=
  match obj with
  | [] => none
  | p :: rest => if p.1 = k then some p.2 else assocGet? rest k

/-- JS `String.prototype.trim`, left side. -/
def trimL (s : List Char) : List Char := s.dropWhile Char.isWhitespace

/-- JS `String.prototype.trim`, right side. -/
def trimR (s : List Char) : List Char := (s.reverse.dropWhile Char.isWhitespace).reverse

/-- JS `String.prototype.trim`. -/
def trimChars (s : List Char) : List Char := trimR (trimL s)

/-- JS `Array.prototype.join` with a separator string. -/
def joinSep (sep : List Char) : List (List Char) → List Char
  | [] => []
  | [x] => x
  | x :: y :: rest => x ++ sep ++ joinSep sep (y :: rest)

/-- Whether a property key is a canonical 32-bit array index ("0", "1", ...,
no leading zeros).  JS object key enumeration lists such keys first, in
ascending numeric order, before all other keys in insertion order. -/
def digitsToNat (s : List Char) : Nat :=
  s.foldl (fun n c => n * 10 + (c.toNat - Char.toNat '0')) 0

def isCanonicalIndex (s : List Char) : Bool :=
  decide (s ≠ []) && s.all Char.isDigit &&
    (decide (s = ['0']) || decide (s.headD '0' ≠ '0')) &&
    decide (digitsToNat s < 4294967295)

def insertByVal (x : List Char) : List (List Char) → List (List Char)
  | [] => [x]
  | y :: rest =>
    if digitsToNat x ≤ digitsToNat y then x :: y :: rest else y :: insertByVal x rest

def sortByVal : List (List Char) → List (List Char)
  | [] => []
  | x :: rest => insertByVal x (sortByVal rest)

/-- JS `Object.keys`: canonical array indices first in ascending numeric
order, then the remaining (string) keys in insertion order. -/
def objKeys (obj : List (List Char × List Char)) : List (List Char) :=
  let ks := obj.map Prod.fst
  sortByVal (ks.filter isCanonicalIndex) ++ ks.filter (fun k => !isCanonicalIndex k)

/-! ## formatCookie (docuware.ts lines 84-98) -/

/-- The regex match `cookie.match(/^([^=]+)=([^;]+);/)` of formatCookie:
a nonempty run of non-`=` characters (the name), `=`, a nonempty run of
non-`;` characters (the value), then a `;`; trailing text is ignored.
Returns the two capture groups. -/
def cookieMatch (s : List Char) : Option (List Char × List Char) :=
  let name := s.takeWhile (fun c => decide (c ≠ '='))
  match s.dropWhile (fun c => decide (c ≠ '=')) with
  | [] => none
  | _ :: afterEq =>
    let v := afterEq.takeWhile (fun c => decide (c ≠ ';'))
    let rest2 := afterEq.dropWhile (fun c => decide (c ≠ ';'))
    if name = [] ∨ v = [] ∨ rest2 = [] then none else some (name, v)

/-- One step of the `reduce` in formatCookie: a matching `Set-Cookie` entry
stores `name = value` on the accumulator object, a non-matching entry is
skipped. -/
def cookieStep (obj : List (List Char × List Char)) (s : List Char) :
    List (List Char × List Char) :=
  match cookieMatch s with
  | some p => objInsert obj p.1 p.2
  | none => obj

/-- The `reduce` of formatCookie over all `Set-Cookie` entries. -/
def cookieFold (l : List (List Char)) : List (List Char × List Char) :=
  l.foldl cookieStep []

/-- formatCookie (docuware.ts lines 84-98): reduce the `Set-Cookie` entries
into an object, then render `Object.keys(obj).map(k => k + '=' + obj[k])`
joined by `"; "` and trimmed. -/
def formatCookie (l : List (List Char)) : List Char :=
  let cookieObj := cookieFold l
  trimChars (joinSep (String.toList "; ")
    ((objKeys cookieObj).map (fun k => k ++ '=' :: assocGetD cookieObj k [])))

/-- Run a partial function over a list, failing as soon as one element
fails (the JS `map` callback throwing propagates out of the whole map). -/
def mapOpt {α β : Type} (f : α → Option β) : List α → Option (List β)
  | [] => some []
  | x :: xs =>
    match f x, mapOpt f xs with
    | some y, some ys => some (y :: ys)
    | _, _ => none

/-! ## JavaScript values

Field items coming back from the API are arbitrary JSON values; the
subset relevant here is modelled with `JSVal`, together with JS
truthiness (`field.Item || ""` keeps truthy items and replaces falsy
ones).  Numbers are modelled as integers; `NaN` does not arise. -/

inductive JSVal where
  | undef
  | nullv
  | str (s : String)
  | num (n : Int)
  | boolean (b : Bool)
  deriving DecidableEq

def JSVal.truthy : JSVal → Bool
  | .undef => false
  | .nullv => false
  | .str s => decide (s ≠ "")
  | .num n => decide (n ≠ 0)
  | .boolean b => b

/-! ## Query expression parser (docuware.ts lines 342-352)

`getDocumentsWithQuery` builds the condition body with
`downloadQueryStr.split('|').map(conditionStr => { let [key, value] =
conditionStr.split('=').map(x => x.trim()); value = value.slice(1, -1);
return { DBName: key, Value: [value] }; })` and `Operation: "Or"`. -/

/-- JS `String.prototype.split` with a one-character separator. -/
def splitOnChar (d : Char) : List Char → List (List Char)
  | [] => [[]]
  | c :: cs =>
    match splitOnChar d cs with
    | [] => [[]]
    | h :: t => if c = d then [] :: h :: t else (c :: h) :: t

structure QueryCondition where
  DBName : List Char
  Value : List (List Char)
  deriving DecidableEq

structure QueryBody where
  Condition : List QueryCondition
  Operation : String
  deriving DecidableEq

/-- JS `value.slice(1, -1)`. -/
def slice1neg1 (s : List Char) : List Char := (s.drop 1).dropLast

/-- Destructuring `let [key, value] = pieces` followed by
`value.slice(1, -1)`: with fewer than two pieces, `value` is `undefined`
and `value.slice` throws (modelled as `none`); extra pieces are ignored. -/
def condOfPieces : List (List Char) → Option QueryCondition
  | [] => none
  | [_] => none
  | k :: v :: _ => some ⟨k, [slice1neg1 v]⟩

/-- One condition string between `|` separators. -/
def parseCondition (cs : List Char) : Option QueryCondition :=
  condOfPieces ((splitOnChar '=' cs).map trimChars)

/-- The whole condition body built by getDocumentsWithQuery: every `|`
segment parsed as a condition, combined with the hard-coded "Or". -/
def parseQueryBody (s : List Char) : Option QueryBody :=
  (mapOpt parseCondition (splitOnChar '|' s)).map (fun cs => ⟨cs, "Or"⟩)

/-! ## Document translation (docuware.ts lines 268-292, 321-334, 353-374) -/

structure DocField where
  FieldName : String
  Item : JSVal
  deriving DecidableEq

/-- The zip-by-index assignment
`items.forEach((item, idx) => fieldsMap[headers[idx]] = item)`:
the key `headers[idx]` is JS `undefined` (modelled `none`) past the end of
the header list. -/
def assignByIndex (hs : List String) :
    List (Option String × JSVal) → List JSVal → Nat → List (Option String × JSVal)
  | acc, [], _ => acc
  | acc, item :: rest, idx => assignByIndex hs (objInsert acc (hs.get? idx) item) rest (idx + 1)

def buildFieldsMap (hs : List String) (items : List JSVal) : List (Option String × JSVal) :=
  assignByIndex hs [] items 0

/-- The uniform `{id, cabinetId, row}` record built by the translator;
`id` is the value of the "DWDOCID" key of the field map (JS `undefined`,
i.e. `none`, when absent). -/
structure TabularRecord where
  id : Option JSVal
  cabinetId : String
  row : List (Option String × JSVal)
  deriving DecidableEq

def rowIdFromMap (m : List (Option String × JSVal)) : Option JSVal :=
  assocGet? m (some "DWDOCID")

structure TableHeader where
  FieldName : String
  deriving DecidableEq

structure TableRow where
  Items : List JSVal
  deriving DecidableEq

/-- One page of the tabular Documents listing: `Headers` (always read on
the first page) and `Rows` (possibly absent). -/
structure TablePage where
  Headers : List TableHeader
  Rows : Option (List TableRow)
  deriving DecidableEq

def tableRowId (hs : List String) (row : TableRow) : Option JSVal :=
  rowIdFromMap (buildFieldsMap hs row.Items)

/-- The per-row translation inside getAllDocumentsFromCabinet. -/
def translateTableRow (hs : List String) (fileCabinetId : String) (row : TableRow) :
    TabularRecord :=
  let fieldsMap := buildFieldsMap hs row.Items
  { id := rowIdFromMap fieldsMap, cabinetId := fileCabinetId, row := fieldsMap }

def batchRequestCount : Nat := 1000

/-- The `while (true)` pagination loop of getAllDocumentsFromCabinet
(docuware.ts lines 268-292).  `fetch start count` models the GET on
`.../Documents?format=table&start=${start}&count=${count}` (`none` is a
null response, whose property access throws).  Headers are taken from the
first fetched page; the loop breaks when `Rows` is missing or empty.
`fuel` bounds the number of iterations; `none` is returned when the loop
does not finish within `fuel` pages (or a fetch returned null). -/
def gatherDocs (fetch : Nat → Nat → Option TablePage) (fileCabinetId : String) :
    Nat → Option (List String) → Nat → Option (List TabularRecord)
  | 0, _, _ => none
  | fuel + 1, headers, start =>
    match fetch start batchRequestCount with
    | none => none
    | some page =>
      let hs := match headers with
        | some h => h
        | none => page.Headers.map (fun h => h.FieldName)
      match page.Rows with
      | none => some []
      | some [] => some []
      | some (r :: rs) =>
        match gatherDocs fetch fileCabinetId fuel (some hs) (start + batchRequestCount) with
        | none => none
        | some rest => some ((r :: rs).map (translateTableRow hs fileCabinetId) ++ rest)

def getAllDocumentsFromCabinet (fetch : Nat → Nat → Option TablePage)
    (fileCabinetId : String) (fuel : Nat) : Option (List TabularRecord) :=
  gatherDocs fetch fileCabinetId fuel none 0

/-! ## Query result processing (docuware.ts lines 357-373) -/

structure CountValue where
  Value : Nat
  deriving DecidableEq

structure QueryItem where
  Fields : List DocField
  deriving DecidableEq

structure QueryFetchResult where
  Count : CountValue
  Items : List QueryItem
  deriving DecidableEq

/-- The per-item translation inside getDocumentsWithQuery:
`row.Fields.forEach((field, idx) => fieldsMap[headers[idx]] = field.Item)`. -/
def translateQueryItem (hs : List String) (cabinetId : String) (item : QueryItem) :
    TabularRecord :=
  let fieldsMap := buildFieldsMap hs (item.Fields.map (fun f => f.Item))
  { id := rowIdFromMap fieldsMap, cabinetId := cabinetId, row := fieldsMap }

/-- The tail of getDocumentsWithQuery after the query link has been
fetched: a zero count returns `[]` immediately; otherwise the field
headers are read from `Items[0].Fields` (which throws on an empty item
list, modelled as `none`) and every item is translated. -/
def processQueryResult (cabinetId : String) (fd : QueryFetchResult) :
    Option (List TabularRecord) :=
  if fd.Count.Value = 0 then some []
  else
    match fd.Items with
    | [] => none
    | first :: _ =>
      let headers := first.Fields.map (fun f => f.FieldName)
      some (fd.Items.map (translateQueryItem headers cabinetId))

/-- Concrete tabular source for the C6 witness: 2000 rows with distinct
DWDOCID values delivered as two full pages of 1000 and an empty page. -/
def c6Row (i : Nat) : TableRow := ⟨[JSVal.num (Int.ofNat i)]⟩

def c6Rows : List TableRow := (List.range 2000).map c6Row

def c6Header : List TableHeader := [⟨"DWDOCID"⟩]

def c6Fetch : Nat → Nat → Option TablePage := fun start _ =>
  if start = 0 then some ⟨c6Header, some (c6Rows.take 1000)⟩
  else if start = 1000 then some ⟨c6Header, some (c6Rows.drop 1000)⟩
  else some ⟨c6Header, some []⟩

/-! ## getDocument (docuware.ts lines 321-334) -/

/-- The `reduce` of getDocument: `obj[field.FieldName] = field.Item || ""`,
i.e. a falsy `Item` is stored as the empty string. -/
def getDocumentRow (fields : List DocField) : List (String × JSVal) :=
  fields.foldl (fun obj f =>
    objInsert obj f.FieldName (if f.Item.truthy then f.Item else .str "")) []

/-- The `{id, cabinetId, row}` record returned by getDocument; `data.Fields`
is the field list of the per-document response. -/
structure DocumentRecord where
  id : String
  cabinetId : String
  row : List (String × JSVal)
  deriving DecidableEq

def getDocument (cabinetId id : String) (dataFields : List DocField) : DocumentRecord :=
  { id := id, cabinetId := cabinetId, row := getDocumentRow dataFields }

/-! ## Command dispatcher (docuware.ts lines 378-574)

`DocuwareCMD.execute` is modelled as a function from the parsed CLI
arguments and an environment (the remote API's responses) to the trace of
observable events: console output and the helper calls that perform
network operations.  CLI flags are `Option String` (`none` = flag absent;
the empty string is falsy like in JS).  The result is `none` when the
dispatcher itself would throw an uncaught exception. -/

structure Cabinet where
  Name : String
  Id : String
  deriving DecidableEq

/-- A resolved document as seen by the dispatcher, which only reads its
`id` property (JS `undefined` when DWDOCID was absent). -/
structure DocumentRef where
  id : Option String
  deriving DecidableEq

structure UploadField where
  FieldName : String
  Item : String
  deriving DecidableEq

structure UploadLink where
  rel : String
  href : String
  deriving DecidableEq

structure UploadResponse where
  Fields : List UploadField
  Links : List UploadLink
  deriving DecidableEq

inductive Event where
  | log (msg : String)
  | credsAuth (username password hostID endpoint : String)
  | tokenAuth (token endpoint : String)
  | fetchCabinets
  | fetchById (cabinetId docId : String)
  | fetchByQuery (cabinetId query : String)
  | fetchByFunction (cabinetId predicate : String)
  | fetchAll (cabinetId : String)
  | printDocs (docs : List DocumentRef)
  | uploadCall (cabinetId filePath : String)
  | updateCall (cabinetId : String) (docId : Option String)
  | downloadCall (cabinetId : String) (docId : Option String)
  deriving DecidableEq

/-- The minimist argument object: fields m e u p h t x c q f i n. -/
structure Args where
  m : Option String
  e : Option String
  u : Option String
  p : Option String
  h : Option String
  t : Option String
  x : Option String
  c : Option String
  q : Option String
  f : Option String
  i : Option String
  n : Option String
  deriving DecidableEq

/-- The remote-side behaviour the dispatcher interacts with: the cabinet
list, the document-resolution helpers, JSON.parse success, and the upload
response. -/
structure CmdEnv where
  tokenOut : String
  cookieOut : String
  cabinets : List Cabinet
  docById : String → String → DocumentRef
  docsByQuery : String → String → List DocumentRef
  docsByFunction : String → String → List DocumentRef
  docsAll : String → List DocumentRef
  parseJson : String → Bool
  uploadResponse : String → String → UploadResponse

/-- JS truthiness of a string-valued CLI flag. -/
def truthy : Option String → Bool
  | none => false
  | some s => decide (s ≠ "")

def optVal (o : Option String) : String := o.getD ""

/-- `(args['u'] || '').replace(/'/g, '"')`. -/
def replaceQuotes (s : String) : String :=
  String.mk (s.toList.map (fun ch => if ch = '\'' then '"' else ch))

def execute (args : Args) (env : CmdEnv) : Option (List Event) :=
  -- lines 380-387: the retrymax/retrybase/retryrandmin/retryrandmax
  -- overrides only assign numeric GLOBALS fields; they emit no output and
  -- do not affect control flow, so they contribute no events
  if truthy args.m = false then some [.log "-m mode not defined."] else
  let mode := optVal args.m
  let endpoint := optVal args.e
  if truthy args.e = false then some [.log "-e endpoint not defined."] else
  if mode = "gencookie" then
    if truthy args.u = false then some [.log "-u username not defined."] else
    if truthy args.p = false then some [.log "-p password not defined."] else
    if truthy args.h = false then some [.log "-h hostname not defined."] else
    some [.credsAuth (optVal args.u) (optVal args.p) (optVal args.h) endpoint,
          .log env.cookieOut]
  else if mode = "gentoken" then
    if truthy args.u = false then some [.log "-u username not defined."] else
    if truthy args.p = false then some [.log "-p password not defined."] else
    if truthy args.h = false then some [.log "-h hostname not defined."] else
    some [.credsAuth (optVal args.u) (optVal args.p) (optVal args.h) endpoint,
          .log env.tokenOut]
  else
  if truthy args.t = false ∧ truthy args.x = false then
    some [.log "neither token -t nor cookie -c defined."]
  else if truthy args.t = true ∧ truthy args.x = true then
    some [.log "both cookie and token were provided... using existing cookie."]
  else
  let authEvents := if truthy args.t = true ∧ truthy args.x = false
    then [Event.tokenAuth (optVal args.t) endpoint]
    else []   -- the source's else branch only assigns GLOBALS.cookie
  let cabinets := env.cabinets
  let rest : Option (List Event) :=
    if mode = "lscabinets" then
      some (cabinets.map (fun cab => Event.log (cab.Name ++ ": " ++ cab.Id)))
    else
    if truthy args.c = false then some [.log "-c cabinet name not defined."] else
    let cabinetName := optVal args.c
    let matching := cabinets.filter (fun cab => cab.Name == cabinetName)
    if matching.length = 0 then
      some [.log ("No matching cabinet(s) for \"" ++ cabinetName ++ "\".")]
    else
    let warn := if truthy args.c = true ∧ matching.length > 1 then
        [Event.log ("WARNING: There are multiple cabinets with the name \"" ++
          cabinetName ++ "\", using the first one.")]
      else []
    let cab0 := matching.headD ⟨"", ""⟩
    let branch : Option (List Event) :=
      if mode = "upload" then
        if truthy args.p = false then some [.log "-p read path not specified."] else
        let resp := env.uploadResponse cab0.Id (optVal args.p)
        match resp.Fields.find? (fun fl => fl.FieldName == "DWDOCID") with
        | none => none
        | some idField =>
          match resp.Links.find? (fun lk => lk.rel == "self") with
          | none => none
          | some selfLink =>
            some [Event.uploadCall cab0.Id (optVal args.p),
                  .log ("DWDOCID: " ++ idField.Item),
                  .log ("LINK: " ++ (endpoint ++ selfLink.href)),
                  .log "File uploaded"]
      else
        let fetched : Option (Event × List DocumentRef) :=
          if truthy args.i = true then
            some (Event.fetchById cab0.Id (optVal args.i),
                  [env.docById cab0.Id (optVal args.i)])
          else if truthy args.q = true then
            some (Event.fetchByQuery cab0.Id (optVal args.q),
                  env.docsByQuery cab0.Id (optVal args.q))
          else if truthy args.f = true then
            some (Event.fetchByFunction cab0.Id (optVal args.f),
                  env.docsByFunction cab0.Id (optVal args.f))
          else if mode ≠ "update" then
            some (Event.fetchAll cab0.Id, env.docsAll cab0.Id)
          else none
        match fetched with
        | none => some [Event.log "Fetching documents...", .log "None of -f -q -i defined."]
        | some fe =>
          let documents := fe.2
          let pre := [Event.log "Fetching documents...", fe.1,
                      Event.log "Completed document fetching."]
          if documents.length = 0 then
            some (pre ++ [.log "No matching documents found."])
          else
          if mode = "get" then some (pre ++ [Event.printDocs documents])
          else if mode = "update" then
            let updateJSONStr := replaceQuotes (optVal args.u)
            if updateJSONStr = "" then some (pre ++ [.log "-u update json not defined."]) else
            if env.parseJson updateJSONStr = false then
              some (pre ++ [.log "-u is not valid json (remember to use single quotes)."])
            else
            if documents.length > 1 then
              some (pre ++ [.log "Multiple matching documents found, tighten the fitler function."])
            else
              some (pre ++ [Event.log "Updating document...",
                            .updateCall cab0.Id (documents.headD ⟨none⟩).id,
                            .log "Completed document update..."])
          else if mode = "download" then
            let fileName := optVal args.n
            if truthy args.p = false then
              some (pre ++ [.log "-p write folder path not specified."])
            else
            if fileName = "" then some (pre ++ [.log "-n file name perfix not specified."]) else
            some (pre ++ [Event.log ("Starting downloads for \"" ++ cabinetName ++ "\"")]
              ++ (documents.enum.map (fun pr =>
                    [Event.downloadCall cab0.Id pr.2.id,
                     Event.log ("File \"" ++ fileName ++ "_" ++ toString pr.1 ++
                       ".pdf\" downloaded.")])).flatten
              ++ [Event.log ("Downloads completed for \"" ++ cabinetName ++ "\"")])
          else
            some (pre ++ [Event.log ("Mode \"" ++ mode ++
              "\" not supported, use one of upload/update/download.")])
    branch.map (fun evs => warn ++ evs)
  rest.map (fun evs => authEvents ++ Event.fetchCabinets :: evs)

/-- C1 failing input: an `lscabinets` invocation supplying both a token
and a cookie.  Argument field order: m e u p h t x c q f i n. -/
def c1Args : Args :=
  ⟨some "lscabinets", some "https://host", none, none, none,
   some "TOKEN", some "COOKIE", none, none, none, none, none⟩

/-- Concrete environment for the C8 witness: one cabinet "C" and a query
that resolves two documents. -/
def c8Env : CmdEnv :=
  ⟨"tok", "cook", [⟨"C", "1"⟩],
   fun _ _ => ⟨some "1"⟩,
   fun _ _ => [⟨some "1"⟩, ⟨some "2"⟩],
   fun _ _ => [],
   fun _ => [],
   fun _ => true,
   fun _ _ => ⟨[], []⟩⟩

theorem retryGo_nonOk_prefix {D : Type} (f : Nat → Outcome D) :
    ∀ (n fuel idx : Nat), NonOkPrefix f idx n → n ≤ fuel →
      retryGo f fuel idx =
        ⟨(retryGo f (fuel - n) (idx + n)).outcome,
          (retryGo f (fuel - n) (idx + n)).calls + n,
          (retryGo f (fuel - n) (idx + n)).delays + n⟩ := by
  intro n
  induction n with
  | zero =>
    intro fuel idx _ _
    simp
  | succ m ih =>
    intro fuel idx hpre hle
    obtain ⟨fu, rfl⟩ : ∃ fu, fuel = fu + 1 := ⟨fuel - 1, by omega⟩
    obtain ⟨s, e, hfe, hs⟩ := hpre 0 (Nat.succ_pos m)
    have hstep : retryGo f (fu + 1) idx =
        ⟨(retryGo f fu (idx + 1)).outcome,
          (retryGo f fu (idx + 1)).calls + 1,
          (retryGo f fu (idx + 1)).delays + 1⟩ := by
      simp only [retryGo]
      rw [Nat.add_zero] at hfe
      rw [hfe]
      simp [hs]
    have hpre2 : NonOkPrefix f (idx + 1) m := by
      intro j hj
      obtain ⟨s2, e2, he2, hs2⟩ := hpre (j + 1) (by omega)
      exact ⟨s2, e2, by rw [show idx + 1 + j = idx + (j + 1) by omega]; exact he2, hs2⟩
    have ihm := ih fu (idx + 1) hpre2 (by omega)
    rw [hstep, ihm]
    have h1 : fu - m = fu + 1 - (m + 1) := by omega
    have h2 : idx + 1 + m = idx + (m + 1) := by omega
    rw [h1, h2]
    simp only [RunStats.mk.injEq]
    exact ⟨trivial, by omega, by omega⟩

theorem retryGo_success_first200 {D : Type} (f : Nat → Outcome D) :
    ∀ (fuel idx : Nat) (d : D), (retryGo f fuel idx).outcome = .success d →
      ∃ i, i < fuel ∧ f (idx + i) = .resp 200 d ∧ NonOkPrefix f idx i := by
  intro fuel
  induction fuel with
  | zero => intro idx d h; simp [retryGo] at h
  | succ fu ih =>
    intro idx d h
    simp only [retryGo] at h
    cases hf : f idx with
    | exn => rw [hf] at h; simp at h
    | resp s e =>
      rw [hf] at h
      by_cases hs : s = 200
      · subst hs
        simp at h
        refine ⟨0, Nat.succ_pos fu, ?_, ?_⟩
        · rw [Nat.add_zero, hf, h]
        · intro j hj; omega
      · simp [hs] at h
        obtain ⟨i, hi, h200, hpre⟩ := ih (idx + 1) d h
        refine ⟨i + 1, by omega, ?_, ?_⟩
        · rw [show idx + (i + 1) = idx + 1 + i by omega]; exact h200
        · intro j hj
          cases j with
          | zero => exact ⟨s, e, by rw [Nat.add_zero]; exact hf, hs⟩
          | succ j2 =>
            obtain ⟨s2, e2, he2, hs2⟩ := hpre j2 (by omega)
            exact ⟨s2, e2, by rw [show idx + (j2 + 1) = idx + 1 + j2 by omega]; exact he2, hs2⟩

theorem nonOkPrefix_snoc {D : Type} (f : Nat → Outcome D) (i s : Nat) (d : D)
    (hpre : NonOkPrefix f 0 i) (hf : f i = .resp s d) (hs : s ≠ 200) :
    NonOkPrefix f 0 (i + 1) := by
  intro j hj
  by_cases hji : j < i
  · exact hpre j hji
  · have : j = i := by omega
    subst this
    exact ⟨s, d, by rw [Nat.zero_add]; exact hf, hs⟩

/-- C2 counterexample: the source loop (docuware.ts lines 205-211 and 235-241)
checks only `res.status == 200`, so a 2xx response with status 201 does
trigger a backoff delay and a retry, refuting the claim that no 2xx
response is retried.  With the default `retryMaxCount = 100`, a 201
followed by a 200 produces one delay and two HTTP calls. -/
theorem retry_2xx_non200_is_retried_cex :
    ((requestRetryRun 100 (fun i => if i = 0 then Outcome.resp 201 1 else Outcome.resp 200 2)).delays = 1
      ∧ (requestRetryRun 100 (fun i => if i = 0 then Outcome.resp 201 1 else Outcome.resp 200 2)).calls = 2
      ∧ (requestRetryRun 100 (fun i => if i = 0 then Outcome.resp 201 1 else Outcome.resp 200 2)).outcome
          = ReqResult.success 2)
    ∧ (fun i => if i = 0 then Outcome.resp 201 1 else Outcome.resp 200 2) 0 = Outcome.resp 201 1 := by
  refine ⟨⟨?_, ?_, ?_⟩, rfl⟩ <;> rfl

/-- C2 amended: in getRequest/postRequest exactly the responses with status
other than 200 (2xx statuses such as 201 included) trigger a backoff delay
and a retry, and a run succeeds with body `d` iff some attempt within the
retry bound receives status 200 with body `d` after only non-200 responses. -/
theorem retry_non200_retry_iff {D : Type} (max : Nat) (f : Nat → Outcome D) :
    (∀ d, (requestRetryRun max f).outcome = .success d ↔
        ∃ i, i < max ∧ f i = .resp 200 d ∧ NonOkPrefix f 0 i)
    ∧ (∀ i s d, NonOkPrefix f 0 i → f i = .resp s d → s ≠ 200 → i < max →
        i + 1 ≤ (requestRetryRun max f).delays)
    ∧ (∀ i d, NonOkPrefix f 0 i → f i = .resp 200 d → i < max →
        (requestRetryRun max f).delays = i ∧ (requestRetryRun max f).calls = i + 1) := by
  have key : ∀ i, NonOkPrefix f 0 i → i ≤ max →
      requestRetryRun max f =
        ⟨(retryGo f (max - i) i).outcome,
          (retryGo f (max - i) i).calls + i,
          (retryGo f (max - i) i).delays + i⟩ := by
    intro i hpre hle
    have h := retryGo_nonOk_prefix f i max 0 hpre hle
    rw [Nat.zero_add] at h
    exact h
  refine ⟨?_, ?_, ?_⟩
  · intro d
    constructor
    · intro h
      obtain ⟨i, hi, h200, hpre⟩ := retryGo_success_first200 f max 0 d h
      rw [Nat.zero_add] at h200
      exact ⟨i, hi, h200, hpre⟩
    · rintro ⟨i, hi, h200, hpre⟩
      rw [key i hpre (by omega)]
      obtain ⟨k, hk⟩ : ∃ k, max - i = k + 1 := ⟨max - i - 1, by omega⟩
      rw [hk]
      simp [retryGo, h200]
  · intro i s d hpre hf hs hi
    have hpre2 := nonOkPrefix_snoc f i s d hpre hf hs
    rw [key (i + 1) hpre2 (by omega)]
    simp
  · intro i d hpre hf hi
    rw [key i hpre (by omega)]
    obtain ⟨k, hk⟩ : ∃ k, max - i = k + 1 := ⟨max - i - 1, by omega⟩
    rw [hk]
    simp [retryGo, hf]
    omega

/-- C2 amended, witness: two 500 responses then a 200 under bound 5 produce
exactly two backoff delays and three HTTP calls. -/
theorem retry_non200_retry_iff_witness :
    (requestRetryRun 5 (fun i => if i < 2 then Outcome.resp 500 0 else Outcome.resp 200 7)).delays = 2
    ∧ (requestRetryRun 5 (fun i => if i < 2 then Outcome.resp 500 0 else Outcome.resp 200 7)).calls = 3 :=
  (retry_non200_retry_iff 5 (fun i => if i < 2 then Outcome.resp 500 0 else Outcome.resp 200 7)).2.2
    2 7
    (by
      intro j hj
      exact ⟨500, 0, by simp [hj], by decide⟩)
    rfl
    (by omega)

/-- C4: for any sequence of HTTP responses (no transport exceptions), the
retry wrapper returns the body of the first status-200 response when one
occurs within the retry bound, and returns no successful result (the
undefined/null `.exhausted` outcome) when every attempt within the bound
has a non-200 status. -/
theorem retry_first200_or_exhaust {D : Type} (max : Nat) (f : Nat → Outcome D)
    (hresp : ∀ i, f i ≠ Outcome.exn) :
    (∀ i d, i < max → f i = .resp 200 d →
        (∀ j, j < i → ∀ s e, f j = .resp s e → s ≠ 200) →
        (requestRetryRun max f).outcome = .success d)
    ∧ ((∀ i, i < max → ∀ d, f i ≠ .resp 200 d) →
        (requestRetryRun max f).outcome = .exhausted) := by
  constructor
  · intro i d hi h200 hbefore
    have hpre : NonOkPrefix f 0 i := by
      intro j hj
      rw [Nat.zero_add]
      cases hfj : f j with
      | exn => exact absurd hfj (hresp j)
      | resp s e => exact ⟨s, e, rfl, hbefore j hj s e hfj⟩
    have h := retryGo_nonOk_prefix f i max 0 hpre (by omega)
    rw [Nat.zero_add] at h
    rw [requestRetryRun, h]
    obtain ⟨k, hk⟩ : ∃ k, max - i = k + 1 := ⟨max - i - 1, by omega⟩
    rw [hk]
    simp [retryGo, h200]
  · intro hno
    have hpre : NonOkPrefix f 0 max := by
      intro j hj
      rw [Nat.zero_add]
      cases hfj : f j with
      | exn => exact absurd hfj (hresp j)
      | resp s e =>
        refine ⟨s, e, rfl, ?_⟩
        intro hs
        subst hs
        exact hno j hj e hfj
    have h := retryGo_nonOk_prefix f max max 0 hpre (by omega)
    rw [Nat.zero_add] at h
    rw [requestRetryRun, h]
    simp [retryGo]

/-- C4 witness: three non-200 responses (status 429) followed by a 200 with
body 9 return that body under the default bound 100; and five straight
non-200 responses under bound 5 return no successful result. -/
theorem retry_first200_or_exhaust_witness :
    (requestRetryRun 100 (fun i => if i < 3 then Outcome.resp 429 0 else Outcome.resp 200 9)).outcome
      = ReqResult.success 9
    ∧ (requestRetryRun 5 (fun _ => Outcome.resp 503 (0 : Nat))).outcome = ReqResult.exhausted := by
  constructor
  · exact
      (retry_first200_or_exhaust 100 (fun i => if i < 3 then Outcome.resp 429 0 else Outcome.resp 200 9)
          (by intro i; by_cases h : i < 3 <;> simp [h])).1
        3 9 (by omega) rfl
        (by
          intro j hj s e he
          rw [if_pos hj] at he
          cases he
          decide)
  · exact
      (retry_first200_or_exhaust 5 (fun _ => Outcome.resp 503 (0 : Nat))
          (by intro i; simp)).2
        (by intro i _ d h; cases h)

/-- C9: a transport-level exception thrown on attempt `i` (after `i` non-200
responses) is caught and makes getRequest/postRequest return null at once:
the run ends with the `.exnNull` outcome, exactly `i + 1` HTTP calls were
issued (none after the exception) and no delay follows the exception. -/
theorem transport_exception_null_immediate {D : Type} (max : Nat) (f : Nat → Outcome D)
    (i : Nat) (hi : i < max) (hpre : NonOkPrefix f 0 i) (hex : f i = .exn) :
    (requestRetryRun max f).outcome = .exnNull
    ∧ (requestRetryRun max f).calls = i + 1
    ∧ (requestRetryRun max f).delays = i := by
  have h := retryGo_nonOk_prefix f i max 0 hpre (by omega)
  rw [Nat.zero_add] at h
  rw [requestRetryRun, h]
  obtain ⟨k, hk⟩ : ∃ k, max - i = k + 1 := ⟨max - i - 1, by omega⟩
  rw [hk]
  simp [retryGo, hex]
  omega

/-- C9 witness: an exception on the very first attempt under bound 100 gives
the null outcome after exactly one call and zero delays. -/
theorem transport_exception_null_immediate_witness :
    (requestRetryRun 100 (fun _ => (Outcome.exn : Outcome Nat))).outcome = ReqResult.exnNull
    ∧ (requestRetryRun 100 (fun _ => (Outcome.exn : Outcome Nat))).calls = 0 + 1
    ∧ (requestRetryRun 100 (fun _ => (Outcome.exn : Outcome Nat))).delays = 0 :=
  transport_exception_null_immediate 100 (fun _ => (Outcome.exn : Outcome Nat)) 0
    (by omega) (by intro j hj; omega) rfl

example : formatCookie [String.toList "a=b;", String.toList "c=d; Path=/"] =
    String.toList "a=b; c=d" := by decide

example : formatCookie [String.toList "a=b"] = [] := by decide

theorem mapOpt_cons_inv {α β : Type} {f : α → Option β} {x : α} {xs : List α}
    {ps : List β} (h : mapOpt f (x :: xs) = some ps) :
    ∃ y ys, f x = some y ∧ mapOpt f xs = some ys ∧ ps = y :: ys := by
  unfold mapOpt at h
  cases hx : f x with
  | none => rw [hx] at h; simp at h
  | some y =>
    cases hxs : mapOpt f xs with
    | none => rw [hx, hxs] at h; simp at h
    | some ys =>
      rw [hx, hxs] at h
      simp at h
      exact ⟨y, ys, rfl, rfl, h.symm⟩

theorem cookieMatch_parts_ne_nil {s : List Char} {p : List Char × List Char}
    (h : cookieMatch s = some p) : p.1 ≠ [] ∧ p.2 ≠ [] := by
  simp only [cookieMatch] at h
  split at h
  · exact absurd h (by simp)
  · split at h
    · exact absurd h (by simp)
    · rename_i hcond
      push_neg at hcond
      simp only [Option.some.injEq] at h
      subst h
      exact ⟨hcond.1, hcond.2.1⟩

theorem foldl_cookieStep_fresh :
    ∀ (l : List (List Char)) (ps acc : List (List Char × List Char)),
      mapOpt cookieMatch l = some ps →
      (ps.map Prod.fst).Nodup →
      (∀ k, k ∈ ps.map Prod.fst → k ∉ acc.map Prod.fst) →
      l.foldl cookieStep acc = acc ++ ps := by
  intro l
  induction l with
  | nil =>
    intro ps acc hm _ _
    simp only [mapOpt, Option.some.injEq] at hm
    subst hm
    simp
  | cons x xs ih =>
    intro ps acc hm hnd hfresh
    obtain ⟨y, ys, hx, hxs, rfl⟩ := mapOpt_cons_inv hm
    simp only [List.foldl_cons]
    have hstep : cookieStep acc x = acc ++ [y] := by
      have hnotin : y.1 ∉ acc.map Prod.fst := hfresh y.1 (by simp)
      have hany : (acc.any fun p => decide (p.1 = y.1)) = false := by
        simp only [List.any_eq_false, decide_eq_true_eq]
        intro p hp hpe
        exact hnotin (by simp only [List.mem_map]; exact ⟨p, hp, hpe⟩)
      simp only [cookieStep, hx, objInsert, hany]
      simp
    rw [hstep]
    have hnd2 : (ys.map Prod.fst).Nodup := by
      simp only [List.map_cons, List.nodup_cons] at hnd
      exact hnd.2
    have hy1 : y.1 ∉ ys.map Prod.fst := by
      simp only [List.map_cons, List.nodup_cons] at hnd
      exact hnd.1
    have hfresh2 : ∀ k, k ∈ ys.map Prod.fst → k ∉ (acc ++ [y]).map Prod.fst := by
      intro k hk
      simp only [List.map_append, List.mem_append, List.map_cons, List.map_nil,
        List.mem_singleton]
      rintro (hka | hky)
      · exact hfresh k (by simp [hk]) hka
      · subst hky
        exact hy1 hk
    rw [ih ys (acc ++ [y]) hxs hnd2 hfresh2]
    simp

theorem cookieFold_eq_of_nodup {l : List (List Char)} {ps : List (List Char × List Char)}
    (hm : mapOpt cookieMatch l = some ps) (hnd : (ps.map Prod.fst).Nodup) :
    cookieFold l = ps := by
  have := foldl_cookieStep_fresh l ps [] hm hnd (by simp)
  simpa [cookieFold] using this

theorem objKeys_no_index {obj : List (List Char × List Char)}
    (h : ∀ p ∈ obj, isCanonicalIndex p.1 = false) :
    objKeys obj = obj.map Prod.fst := by
  simp only [objKeys]
  have h1 : (obj.map Prod.fst).filter isCanonicalIndex = [] := by
    rw [List.filter_eq_nil_iff]
    intro k hk
    simp only [List.mem_map] at hk
    obtain ⟨p, hp, rfl⟩ := hk
    simp [h p hp]
  have h2 : (obj.map Prod.fst).filter (fun k => !isCanonicalIndex k) = obj.map Prod.fst := by
    rw [List.filter_eq_self]
    intro k hk
    simp only [List.mem_map] at hk
    obtain ⟨p, hp, rfl⟩ := hk
    simp [h p hp]
  rw [h1, h2]
  simp [sortByVal]

theorem keys_map_assocGetD {obj : List (List Char × List Char)}
    (hnd : (obj.map Prod.fst).Nodup) :
    (obj.map Prod.fst).map (fun k => k ++ '=' :: assocGetD obj k []) =
      obj.map (fun p => p.1 ++ '=' :: p.2) := by
  induction obj with
  | nil => rfl
  | cons q rest ih =>
    simp only [List.map_cons, List.nodup_cons] at hnd
    obtain ⟨hq, hrest⟩ := hnd
    simp only [List.map_cons, List.cons.injEq]
    refine ⟨by simp [assocGetD], ?_⟩
    have hcong : (rest.map Prod.fst).map (fun k => k ++ '=' :: assocGetD (q :: rest) k []) =
        (rest.map Prod.fst).map (fun k => k ++ '=' :: assocGetD rest k []) := by
      apply List.map_congr_left
      intro k hk
      have hkq : q.1 ≠ k := fun he => hq (he ▸ hk)
      simp [assocGetD, hkq]
    rw [hcong, ih hrest]

theorem mapOpt_mem_inv {α β : Type} {f : α → Option β} :
    ∀ {l : List α} {ps : List β}, mapOpt f l = some ps →
      ∀ p ∈ ps, ∃ s, s ∈ l ∧ f s = some p := by
  intro l
  induction l with
  | nil =>
    intro ps h p hp
    simp only [mapOpt, Option.some.injEq] at h
    subst h
    simp at hp
  | cons x xs ih =>
    intro ps h p hp
    obtain ⟨y, ys, hx, hxs, rfl⟩ := mapOpt_cons_inv h
    rcases List.mem_cons.mp hp with h1 | h2
    · exact ⟨x, by simp, h1 ▸ hx⟩
    · obtain ⟨s, hs, hfs⟩ := ih hxs p h2
      exact ⟨s, by simp [hs], hfs⟩

theorem joinSep_ne_nil (sep : List Char) (x : List Char) (rest : List (List Char))
    (hx : x ≠ []) : joinSep sep (x :: rest) ≠ [] := by
  cases rest with
  | nil => simpa [joinSep] using hx
  | cons y t => simp [joinSep, hx]

theorem joinSep_head? (sep : List Char) (x : List Char) (rest : List (List Char))
    (hx : x ≠ []) : (joinSep sep (x :: rest)).head? = x.head? := by
  obtain ⟨c, x2, rfl⟩ : ∃ c x2, x = c :: x2 := by
    cases x with
    | nil => exact absurd rfl hx
    | cons c x2 => exact ⟨c, x2, rfl⟩
  cases rest with
  | nil => rfl
  | cons y t => rfl

theorem joinSep_concat_getLast? (sep : List Char) :
    ∀ (pieces : List (List Char)) (z : List Char), (∀ w ∈ pieces, w ≠ []) → z ≠ [] →
      (joinSep sep (pieces ++ [z])).getLast? = z.getLast? := by
  intro pieces
  induction pieces with
  | nil => intro z _ _; rfl
  | cons x t ih =>
    intro z hw hz
    cases ht : t ++ [z] with
    | nil => exact absurd ht (by simp)
    | cons y u =>
      have hy : y ≠ [] := by
        cases t with
        | nil =>
          simp only [List.nil_append, List.cons.injEq] at ht
          exact ht.1 ▸ hz
        | cons a t2 =>
          simp only [List.cons_append, List.cons.injEq] at ht
          exact ht.1 ▸ hw a (by simp)
      have hjoin : joinSep sep (t ++ [z]) ≠ [] := by
        rw [ht]
        exact joinSep_ne_nil sep y u hy
      have hstep : joinSep sep ((x :: t) ++ [z]) = x ++ sep ++ joinSep sep (t ++ [z]) := by
        rw [List.cons_append, ht]
        rfl
      rw [hstep, List.getLast?_append_of_ne_nil _ hjoin]
      exact ih z (fun w hwt => hw w (by simp [hwt])) hz

theorem trimChars_eq_self {s : List Char}
    (hh : ∀ c, s.head? = some c → c.isWhitespace = false)
    (hl : ∀ c, s.getLast? = some c → c.isWhitespace = false) :
    trimChars s = s := by
  cases s with
  | nil => rfl
  | cons a t =>
    have ha : a.isWhitespace = false := hh a rfl
    have h1 : trimL (a :: t) = a :: t := by
      simp [trimL, List.dropWhile_cons, ha]
    rw [trimChars, h1]
    cases hr : (a :: t).reverse with
    | nil => exact absurd hr (by simp)
    | cons b rb =>
      have hb : b.isWhitespace = false := by
        apply hl b
        rw [← List.head?_reverse, hr]
        rfl
      rw [trimR, hr, List.dropWhile_cons]
      simp only [hb, Bool.false_eq_true, if_false]
      rw [← hr, List.reverse_reverse]

/-- C3 counterexample: the regex of formatCookie requires a `;` after the
value, so the `Set-Cookie` entry "a=b" contributes no pair at all: the
result is the empty string rather than a string containing "a=b". -/
theorem formatCookie_drops_unterminated_cex :
    formatCookie [String.toList "a=b"] = [] ∧ String.toList "a=b" ≠ ([] : List Char) :=
  ⟨by decide, by decide⟩

/-- C3 amended: for `Set-Cookie` entries that each match `name=value;`
(value terminated by a semicolon), with pairwise-distinct names that are
not canonical array-index strings and with no whitespace inside names or
values, formatCookie returns exactly the `name=value` pairs joined by
`"; "` in first-seen order with no trailing separator.  Entries without a
semicolon-terminated value are dropped (forced by the counterexample). -/
theorem formatCookie_joins_matching_pairs
    (l : List (List Char)) (ps : List (List Char × List Char))
    (hm : mapOpt cookieMatch l = some ps)
    (hnd : (ps.map Prod.fst).Nodup)
    (hidx : ∀ p ∈ ps, isCanonicalIndex p.1 = false)
    (hws : ∀ p ∈ ps, (∀ c ∈ p.1, c.isWhitespace = false) ∧ (∀ c ∈ p.2, c.isWhitespace = false)) :
    formatCookie l = joinSep (String.toList "; ") (ps.map (fun p => p.1 ++ '=' :: p.2)) := by
  have hfold : cookieFold l = ps := cookieFold_eq_of_nodup hm hnd
  have hparts : ∀ p ∈ ps, p.1 ≠ [] ∧ p.2 ≠ [] := by
    intro p hp
    obtain ⟨s, _, hfs⟩ := mapOpt_mem_inv hm p hp
    exact cookieMatch_parts_ne_nil hfs
  simp only [formatCookie]
  rw [hfold, objKeys_no_index hidx, keys_map_assocGetD hnd]
  cases ps with
  | nil => rfl
  | cons p0 pr =>
    apply trimChars_eq_self
    · intro c hc
      have hp0 : p0.1 ≠ [] := (hparts p0 (by simp)).1
      rw [List.map_cons, joinSep_head? _ _ _ (by simp)] at hc
      obtain ⟨d, dd, hd⟩ : ∃ d dd, p0.1 = d :: dd := by
        cases h0 : p0.1 with
        | nil => exact absurd h0 hp0
        | cons d dd => exact ⟨d, dd, rfl⟩
      rw [hd] at hc
      simp only [List.cons_append, List.head?_cons, Option.some.injEq] at hc
      exact hc ▸ (hws p0 (by simp)).1 d (by rw [hd]; exact List.mem_cons_self d dd)
    · intro c hc
      obtain ⟨L, pl, hL⟩ : ∃ L pl, p0 :: pr = L ++ [pl] := by
        rcases List.eq_nil_or_concat (p0 :: pr) with h | ⟨L, pl, h⟩
        · exact absurd h (by simp)
        · exact ⟨L, pl, by rw [h, List.concat_eq_append]⟩
      have hplmem : pl ∈ p0 :: pr := by rw [hL]; simp
      have hpl2 : pl.2 ≠ [] := (hparts pl hplmem).2
      have hwpieces : ∀ w ∈ L.map (fun p => p.1 ++ '=' :: p.2), w ≠ [] := by
        intro w hw
        simp only [List.mem_map] at hw
        obtain ⟨q, _, rfl⟩ := hw
        simp
      rw [hL, List.map_append, List.map_singleton,
        joinSep_concat_getLast? _ _ _ hwpieces (by simp)] at hc
      rw [List.getLast?_append_cons] at hc
      obtain ⟨v, vs, hv⟩ : ∃ v vs, pl.2 = v :: vs := by
        cases h2 : pl.2 with
        | nil => exact absurd h2 hpl2
        | cons v vs => exact ⟨v, vs, rfl⟩
      rw [hv, List.getLast?_cons_cons] at hc
      have hcmem : c ∈ pl.2 := by
        have hx : c ∈ (v :: vs).getLast? := by rw [Option.mem_def, hc]
        obtain ⟨hne, heq⟩ := List.mem_getLast?_eq_getLast hx
        rw [hv, heq]
        exact List.getLast_mem hne
      exact (hws pl hplmem).2 c hcmem

/-- C3 amended, witness: two well-formed `Set-Cookie` entries are rendered
as their pairs joined by "; ". -/
theorem formatCookie_joins_matching_pairs_witness :
    formatCookie [String.toList "a=b;", String.toList "cd=ef; Path=/"] =
      joinSep (String.toList "; ")
        ([(String.toList "a", String.toList "b"),
          (String.toList "cd", String.toList "ef")].map (fun p => p.1 ++ '=' :: p.2)) :=
  formatCookie_joins_matching_pairs
    [String.toList "a=b;", String.toList "cd=ef; Path=/"]
    [(String.toList "a", String.toList "b"), (String.toList "cd", String.toList "ef")]
    (by decide) (by decide) (by decide) (by decide)

example :
    parseQueryBody (String.toList "A = [1] | B = [2]") =
      some ⟨[⟨String.toList "A", [String.toList "1"]⟩,
             ⟨String.toList "B", [String.toList "2"]⟩], "Or"⟩ := by decide

theorem splitOnChar_ne_nil (d : Char) : ∀ s : List Char, splitOnChar d s ≠ [] := by
  intro s
  cases s with
  | nil => simp [splitOnChar]
  | cons c cs =>
    simp only [splitOnChar]
    cases h : splitOnChar d cs with
    | nil => simp
    | cons hh tt =>
      by_cases hc : c = d
      · simp [hc]
      · simp [hc]

theorem splitOnChar_cons (d c : Char) (cs : List Char) :
    splitOnChar d (c :: cs) =
      if c = d then [] :: splitOnChar d cs
      else (c :: (splitOnChar d cs).headD []) :: (splitOnChar d cs).tail := by
  cases h : splitOnChar d cs with
  | nil => exact absurd h (splitOnChar_ne_nil d cs)
  | cons hh tt => simp [splitOnChar, h]

theorem splitOnChar_append (d : Char) :
    ∀ (u v : List Char),
      splitOnChar d (u ++ v) =
        (splitOnChar d u).dropLast ++
          ((splitOnChar d u).getLastD [] ++ (splitOnChar d v).headD []) ::
            (splitOnChar d v).tail := by
  intro u
  induction u with
  | nil =>
    intro v
    cases h : splitOnChar d v with
    | nil => exact absurd h (splitOnChar_ne_nil d v)
    | cons hh tt => simp [splitOnChar, h]
  | cons x u2 ih =>
    intro v
    rw [List.cons_append, splitOnChar_cons, splitOnChar_cons]
    by_cases hx : x = d
    · simp only [hx, if_true]
      rw [ih v]
      cases hS : splitOnChar d u2 with
      | nil => exact absurd hS (splitOnChar_ne_nil d u2)
      | cons s t =>
        cases t with
        | nil => simp
        | cons s2 t2 => simp
    · simp only [hx, if_false]
      rw [ih v]
      cases hS : splitOnChar d u2 with
      | nil => exact absurd hS (splitOnChar_ne_nil d u2)
      | cons s t =>
        cases t with
        | nil => simp
        | cons s2 t2 => simp

theorem trimR_append_ws (p : List Char) (c : Char) (hc : c.isWhitespace = true) :
    trimR (p ++ [c]) = trimR p := by
  simp only [trimR, List.reverse_append, List.reverse_cons, List.reverse_nil,
    List.nil_append, List.singleton_append, List.dropWhile_cons, hc, if_true]

theorem trimChars_append_ws (p : List Char) (c : Char) (hc : c.isWhitespace = true) :
    trimChars (p ++ [c]) = trimChars p := by
  simp only [trimChars, trimL, List.dropWhile_append]
  cases h : (p.dropWhile Char.isWhitespace).isEmpty
  · simp only [Bool.false_eq_true, if_false]
    exact trimR_append_ws _ c hc
  · simp only [if_true]
    simp only [List.isEmpty_iff] at h
    rw [h]
    simp [List.dropWhile_cons, hc, trimR]

theorem trimChars_cons_ws (p : List Char) (c : Char) (hc : c.isWhitespace = true) :
    trimChars (c :: p) = trimChars p := by
  simp only [trimChars, trimL, List.dropWhile_cons, hc, if_true]

theorem parseCondition_eq_of_trim_pieces {a b : List Char}
    (h : (splitOnChar '=' a).map trimChars = (splitOnChar '=' b).map trimChars) :
    parseCondition a = parseCondition b := by
  unfold parseCondition
  rw [h]

theorem parseCondition_insert_left (w z : List Char) (c : Char)
    (hc : c.isWhitespace = true) :
    parseCondition (w ++ c :: '=' :: z) = parseCondition (w ++ '=' :: z) := by
  apply parseCondition_eq_of_trim_pieces
  have hcne : c ≠ '=' := by
    intro h
    rw [h] at hc
    exact absurd hc (by decide)
  have hz : splitOnChar '=' ('=' :: z) = [] :: splitOnChar '=' z := by
    rw [splitOnChar_cons]
    simp
  have hcz : splitOnChar '=' (c :: '=' :: z) = [c] :: splitOnChar '=' z := by
    rw [splitOnChar_cons, if_neg hcne, hz]
    simp
  rw [splitOnChar_append, splitOnChar_append, hz, hcz]
  cases hZ : splitOnChar '=' z with
  | nil => exact absurd hZ (splitOnChar_ne_nil '=' z)
  | cons zh zt =>
    simp only [List.headD_cons, List.tail_cons, List.map_append, List.map_cons]
    rw [List.append_nil, trimChars_append_ws _ c hc]

theorem parseCondition_insert_right (w z : List Char) (c : Char)
    (hc : c.isWhitespace = true) :
    parseCondition (w ++ '=' :: c :: z) = parseCondition (w ++ '=' :: z) := by
  apply parseCondition_eq_of_trim_pieces
  have hcne : c ≠ '=' := by
    intro h
    rw [h] at hc
    exact absurd hc (by decide)
  have hz : splitOnChar '=' ('=' :: z) = [] :: splitOnChar '=' z := by
    rw [splitOnChar_cons]
    simp
  cases hZ : splitOnChar '=' z with
  | nil => exact absurd hZ (splitOnChar_ne_nil '=' z)
  | cons zh zt =>
    have hcz : splitOnChar '=' ('=' :: c :: z) = [] :: (c :: zh) :: zt := by
      rw [splitOnChar_cons]
      simp only [if_pos rfl]
      rw [splitOnChar_cons, if_neg hcne, hZ]
      simp
    rw [splitOnChar_append, splitOnChar_append, hz, hcz, hZ]
    simp only [List.headD_cons, List.tail_cons, List.map_append, List.map_cons,
      List.append_nil]
    rw [trimChars_cons_ws _ c hc]

theorem mapOpt_congr_mid {α β : Type} (f : α → Option β) :
    ∀ (A : List α) (x y : α) (C : List α), f x = f y →
      mapOpt f (A ++ x :: C) = mapOpt f (A ++ y :: C) := by
  intro A
  induction A with
  | nil =>
    intro x y C h
    simp only [List.nil_append, mapOpt, h]
  | cons a A2 ih =>
    intro x y C h
    simp only [List.cons_append, mapOpt, List.append_eq]
    rw [ih x y C h]

/-- C5: the query parser of getDocumentsWithQuery maps
"A = [1] | B = [2]" to exactly the two conditions
(DBName "A", Value ["1"]) and (DBName "B", Value ["2"]) combined with
Operation "Or"; and on every input, inserting a whitespace character
immediately before or after any `=` leaves the parse unchanged. -/
theorem query_parser_conditions_and_ws :
    (parseQueryBody (String.toList "A = [1] | B = [2]") =
      some ⟨[⟨String.toList "A", [String.toList "1"]⟩,
             ⟨String.toList "B", [String.toList "2"]⟩], "Or"⟩)
    ∧ ∀ (u v : List Char) (c : Char), c.isWhitespace = true →
        parseQueryBody (u ++ c :: '=' :: v) = parseQueryBody (u ++ '=' :: v)
        ∧ parseQueryBody (u ++ '=' :: c :: v) = parseQueryBody (u ++ '=' :: v) := by
  constructor
  · decide
  · intro u v c hc
    have hcp : c ≠ '|' := by
      intro h
      rw [h] at hc
      exact absurd hc (by decide)
    have heqp : ('=' : Char) ≠ '|' := by decide
    cases hV : splitOnChar '|' v with
    | nil => exact absurd hV (splitOnChar_ne_nil '|' v)
    | cons vh vt =>
      have h1 : splitOnChar '|' ('=' :: v) = ('=' :: vh) :: vt := by
        rw [splitOnChar_cons, if_neg heqp, hV]
        simp
      have h2 : splitOnChar '|' (c :: '=' :: v) = (c :: '=' :: vh) :: vt := by
        rw [splitOnChar_cons, if_neg hcp, h1]
        simp
      have h3 : splitOnChar '|' ('=' :: c :: v) = ('=' :: c :: vh) :: vt := by
        rw [splitOnChar_cons, if_neg heqp, splitOnChar_cons, if_neg hcp, hV]
        simp
      constructor
      · unfold parseQueryBody
        rw [splitOnChar_append, splitOnChar_append, h1, h2]
        simp only [List.headD_cons, List.tail_cons]
        rw [mapOpt_congr_mid parseCondition _ _ _ _
          (parseCondition_insert_left ((splitOnChar '|' u).getLastD []) vh c hc)]
      · unfold parseQueryBody
        rw [splitOnChar_append, splitOnChar_append, h1, h3]
        simp only [List.headD_cons, List.tail_cons]
        rw [mapOpt_congr_mid parseCondition _ _ _ _
          (parseCondition_insert_right ((splitOnChar '|' u).getLastD []) vh c hc)]

/-- C5 witness: inserting a space before the `=` of "A=[1]" does not change
the parse. -/
theorem query_parser_conditions_and_ws_witness :
    parseQueryBody (String.toList "A =[1]") = parseQueryBody (String.toList "A=[1]") := by
  have h := (query_parser_conditions_and_ws.2 ['A'] (String.toList "[1]") ' ' (by decide)).1
  exact h

/-- C7: when the fetched query result has count zero, getDocumentsWithQuery
returns the empty list before reading `Items[0]`, so no out-of-bounds read
happens even when the item list is empty (the `none` crash branch of the
model is not reached). -/
theorem query_zero_count_short_circuits (cabinetId : String) (fd : QueryFetchResult)
    (h : fd.Count.Value = 0) : processQueryResult cabinetId fd = some [] := by
  simp [processQueryResult, h]

/-- C7 witness: a zero-count result with an empty item list yields `some []`
rather than the crash marker. -/
theorem query_zero_count_short_circuits_witness :
    processQueryResult "cab" ⟨⟨0⟩, []⟩ = some [] :=
  query_zero_count_short_circuits "cab" ⟨⟨0⟩, []⟩ rfl

/-- C6: getAllDocumentsFromCabinet pages in fixed windows of 1000 starting
at offsets 0, 1000, 2000, stops exactly at the first page whose row set is
empty or missing, translates every row with the field names of the first
page's header row (later pages' headers are ignored), and a source
returning 1000, 1000 and 0 rows yields exactly 2000 records whose ids
(for a source with pairwise-distinct DWDOCID values) contain no
duplicates. -/
theorem pagination_windows_1000_1000_0 (fetch : Nat → Nat → Option TablePage)
    (cab : String) (H0 H1 H2 : List TableHeader) (r1 r2 : List TableRow)
    (rows2 : Option (List TableRow))
    (h0 : fetch 0 1000 = some ⟨H0, some r1⟩)
    (h1 : fetch 1000 1000 = some ⟨H1, some r2⟩)
    (h2 : fetch 2000 1000 = some ⟨H2, rows2⟩)
    (h2e : rows2 = some [] ∨ rows2 = none)
    (hl1 : r1.length = 1000) (hl2 : r2.length = 1000)
    (hn : ((r1 ++ r2).map (tableRowId (H0.map (fun h => h.FieldName)))).Nodup) :
    ∀ n : Nat,
      getAllDocumentsFromCabinet fetch cab (n + 3) =
        some ((r1 ++ r2).map (translateTableRow (H0.map (fun h => h.FieldName)) cab))
      ∧ ((r1 ++ r2).map (translateTableRow (H0.map (fun h => h.FieldName)) cab)).length = 2000
      ∧ (((r1 ++ r2).map (translateTableRow (H0.map (fun h => h.FieldName)) cab)).map
          (fun d => d.id)).Nodup := by
  intro n
  obtain ⟨a, r1', ha⟩ : ∃ a r1', r1 = a :: r1' := by
    cases hcase : r1 with
    | nil => rw [hcase] at hl1; simp at hl1
    | cons a r1' => exact ⟨a, r1', rfl⟩
  obtain ⟨b, r2', hb⟩ : ∃ b r2', r2 = b :: r2' := by
    cases hcase : r2 with
    | nil => rw [hcase] at hl2; simp at hl2
    | cons b r2' => exact ⟨b, r2', rfl⟩
  have hmain : getAllDocumentsFromCabinet fetch cab (n + 3) =
      some ((r1 ++ r2).map (translateTableRow (H0.map (fun h => h.FieldName)) cab)) := by
    have e3 : n + 3 = (n + 1 + 1) + 1 := rfl
    rw [getAllDocumentsFromCabinet, e3]
    simp only [gatherDocs, batchRequestCount]
    rw [h0, h1, h2, ha, hb]
    rcases h2e with he | he <;> rw [he] <;> simp [List.map_append]
  refine ⟨hmain, ?_, ?_⟩
  · simp only [List.length_map, List.length_append, hl1, hl2]
  · rw [List.map_map]
    have hcomp : (r1 ++ r2).map ((fun d => d.id) ∘ translateTableRow (H0.map (fun h => h.FieldName)) cab) =
        (r1 ++ r2).map (tableRowId (H0.map (fun h => h.FieldName))) :=
      List.map_congr_left (fun r _ => rfl)
    rw [hcomp]
    exact hn

/-- C6 witness: the concrete 1000/1000/0 source yields exactly 2000
translated records with pairwise-distinct ids. -/
theorem pagination_windows_1000_1000_0_witness :
    getAllDocumentsFromCabinet c6Fetch "cab" (0 + 3) =
      some ((c6Rows.take 1000 ++ c6Rows.drop 1000).map
        (translateTableRow (c6Header.map (fun h => h.FieldName)) "cab"))
    ∧ ((c6Rows.take 1000 ++ c6Rows.drop 1000).map
        (translateTableRow (c6Header.map (fun h => h.FieldName)) "cab")).length = 2000
    ∧ (((c6Rows.take 1000 ++ c6Rows.drop 1000).map
        (translateTableRow (c6Header.map (fun h => h.FieldName)) "cab")).map
        (fun d => d.id)).Nodup :=
  pagination_windows_1000_1000_0 c6Fetch "cab" c6Header c6Header c6Header
    (c6Rows.take 1000) (c6Rows.drop 1000) (some [])
    rfl rfl rfl (Or.inl rfl)
    (by simp [c6Rows])
    (by simp [c6Rows])
    (by
      rw [List.take_append_drop]
      have hmap : c6Rows.map (tableRowId (c6Header.map (fun h => h.FieldName))) =
          (List.range 2000).map (fun i => some (JSVal.num (Int.ofNat i))) := by
        simp only [c6Rows, List.map_map]
        exact List.map_congr_left (fun i _ => rfl)
      rw [hmap]
      have hinj : Function.Injective (fun i : Nat => some (JSVal.num (Int.ofNat i))) := by
        intro a b h
        simpa using h
      exact (List.nodup_range 2000).map hinj)
    0

theorem foldl_objInsert_fresh {α κ ν : Type} [DecidableEq κ] (key : α → κ) (val : α → ν) :
    ∀ (l : List α) (acc : List (κ × ν)),
      (l.map key).Nodup → (∀ k ∈ l.map key, k ∉ acc.map Prod.fst) →
      l.foldl (fun obj f => objInsert obj (key f) (val f)) acc =
        acc ++ l.map (fun f => (key f, val f)) := by
  intro l
  induction l with
  | nil => intro acc _ _; simp
  | cons x xs ih =>
    intro acc hnd hfresh
    simp only [List.map_cons, List.nodup_cons] at hnd
    simp only [List.foldl_cons]
    have hstep : objInsert acc (key x) (val x) = acc ++ [(key x, val x)] := by
      have hnotin : key x ∉ acc.map Prod.fst := hfresh (key x) (by simp)
      have hany : (acc.any fun p => decide (p.1 = key x)) = false := by
        simp only [List.any_eq_false, decide_eq_true_eq]
        intro p hp hpe
        exact hnotin (by simp only [List.mem_map]; exact ⟨p, hp, hpe⟩)
      simp [objInsert, hany]
    have hfresh2 : ∀ k ∈ xs.map key, k ∉ (acc ++ [(key x, val x)]).map Prod.fst := by
      intro k hk
      simp only [List.map_append, List.mem_append, List.map_cons, List.map_nil,
        List.mem_singleton]
      rintro (hka | hky)
      · exact hfresh k (by simp [hk]) hka
      · exact hnd.1 (hky ▸ hk)
    rw [hstep, ih (acc ++ [(key x, val x)]) hnd.2 hfresh2]
    simp

theorem assocGet?_map_of_nodup {α κ ν : Type} [DecidableEq κ] (key : α → κ) (val : α → ν) :
    ∀ (l : List α), (l.map key).Nodup →
      ∀ f ∈ l, assocGet? (l.map (fun g => (key g, val g))) (key f) = some (val f) := by
  intro l
  induction l with
  | nil => intro _ f hf; simp at hf
  | cons x xs ih =>
    intro hnd f hf
    simp only [List.map_cons, List.nodup_cons] at hnd
    rcases List.mem_cons.mp hf with h1 | h2
    · subst h1
      simp [assocGet?]
    · have hne : key x ≠ key f := by
        intro he
        exact hnd.1 (by rw [he]; exact List.mem_map_of_mem key h2)
      simp only [List.map_cons, assocGet?, hne, if_false]
      exact ih hnd.2 f h2

/-- C10: in getDocument, whenever the per-document response has
pairwise-distinct field names, every field whose `Item` is falsy
(undefined, null, "", 0, false) is stored in the returned row as the
empty string, and every listed field name maps to a defined (non-undefined)
value in the row. -/
theorem getDocument_falsy_item_empty_string (fields : List DocField)
    (hnd : (fields.map (fun f => f.FieldName)).Nodup) :
    (∀ f ∈ fields, f.Item.truthy = false →
        assocGet? (getDocumentRow fields) f.FieldName = some (JSVal.str ""))
    ∧ (∀ f ∈ fields, ∃ v, assocGet? (getDocumentRow fields) f.FieldName = some v
        ∧ v ≠ JSVal.undef) := by
  have hrow : getDocumentRow fields =
      fields.map (fun f => (f.FieldName, if f.Item.truthy then f.Item else JSVal.str "")) := by
    have := foldl_objInsert_fresh (fun f : DocField => f.FieldName)
      (fun f => if f.Item.truthy then f.Item else JSVal.str "") fields [] hnd (by simp)
    simpa [getDocumentRow] using this
  have hget : ∀ f ∈ fields,
      assocGet? (getDocumentRow fields) f.FieldName =
        some (if f.Item.truthy then f.Item else JSVal.str "") := by
    intro f hf
    rw [hrow]
    exact assocGet?_map_of_nodup (fun f : DocField => f.FieldName)
      (fun f => if f.Item.truthy then f.Item else JSVal.str "") fields hnd f hf
  constructor
  · intro f hf hfalsy
    rw [hget f hf, hfalsy]
    simp
  · intro f hf
    refine ⟨if f.Item.truthy then f.Item else JSVal.str "", hget f hf, ?_⟩
    cases htr : f.Item.truthy
    · simp
    · simp only [if_pos rfl, if_true]
      intro he
      rw [he] at htr
      exact absurd htr (by simp [JSVal.truthy])

/-- C10 witness: a null item is returned as the empty string and every
field name of the response is present in the row. -/
theorem getDocument_falsy_item_empty_string_witness :
    (∀ f ∈ [DocField.mk "A" JSVal.nullv, DocField.mk "B" (JSVal.str "x")], f.Item.truthy = false →
        assocGet? (getDocumentRow [DocField.mk "A" JSVal.nullv, DocField.mk "B" (JSVal.str "x")])
          f.FieldName = some (JSVal.str ""))
    ∧ (∀ f ∈ [DocField.mk "A" JSVal.nullv, DocField.mk "B" (JSVal.str "x")],
        ∃ v, assocGet? (getDocumentRow [DocField.mk "A" JSVal.nullv, DocField.mk "B" (JSVal.str "x")])
          f.FieldName = some v ∧ v ≠ JSVal.undef) :=
  getDocument_falsy_item_empty_string
    [DocField.mk "A" JSVal.nullv, DocField.mk "B" (JSVal.str "x")] (by decide)

/-- C1: when both a token (-t) and a cookie (-x) are supplied, the
dispatcher (docuware.ts lines 433-436) prints "both cookie and token were
provided... using existing cookie." and returns immediately: for any
environment no authentication happens, no cabinet list is fetched and the
requested operation is never performed.  This contradicts the claim (and
the wording of the log message itself) that execution proceeds on the
cookie path. -/
theorem execute_both_token_cookie_halts :
    ∀ env : CmdEnv, execute c1Args env =
      some [Event.log "both cookie and token were provided... using existing cookie."] := by
  intro env
  rfl

/-- C8: under update mode (cookie auth, one matching cabinet, documents
resolved through a query, valid update JSON), whenever more than one
document was resolved the dispatcher prints "Multiple matching documents
found, tighten the fitler function." and halts: the full trace is exactly
the cabinet fetch, the fetch logs, the query resolution and that message,
and contains no updateCall event. -/
theorem execute_update_multiple_docs_halts
    (eV xV cName qV uV : String) (pO hO fO nO : Option String)
    (env : CmdEnv) (cab : Cabinet) (docs : List DocumentRef)
    (he : eV ≠ "") (hx : xV ≠ "") (hcn : cName ≠ "") (hq : qV ≠ "")
    (hcabs : env.cabinets = [cab]) (hname : cab.Name = cName)
    (hdocs : env.docsByQuery cab.Id qV = docs)
    (hlen : 1 < docs.length)
    (hu : replaceQuotes uV ≠ "")
    (hjson : env.parseJson (replaceQuotes uV) = true) :
    execute ⟨some "update", some eV, some uV, pO, hO, none, some xV,
             some cName, some qV, fO, none, nO⟩ env =
      some [Event.fetchCabinets, Event.log "Fetching documents...",
            Event.fetchByQuery cab.Id qV, Event.log "Completed document fetching.",
            Event.log "Multiple matching documents found, tighten the fitler function."]
    ∧ ∀ (cid : String) (did : Option String),
        Event.updateCall cid did ∉
          [Event.fetchCabinets, Event.log "Fetching documents...",
           Event.fetchByQuery cab.Id qV, Event.log "Completed document fetching.",
           Event.log "Multiple matching documents found, tighten the fitler function."] := by
  constructor
  · have hne0 : docs.length ≠ 0 := by omega
    simp [execute, optVal, truthy, he, hx, hcn, hq, hcabs, hname, hdocs, hjson, hu, hlen, hne0]
  · intro cid did
    simp

/-- C8 witness: a concrete update invocation resolving two documents halts
at the multiple-documents message without an updateCall event. -/
theorem execute_update_multiple_docs_halts_witness :
    execute ⟨some "update", some "E", some "1", none, none, none, some "X",
             some "C", some "Q", none, none, none⟩ c8Env =
      some [Event.fetchCabinets, Event.log "Fetching documents...",
            Event.fetchByQuery "1" "Q", Event.log "Completed document fetching.",
            Event.log "Multiple matching documents found, tighten the fitler function."]
    ∧ ∀ (cid : String) (did : Option String),
        Event.updateCall cid did ∉
          [Event.fetchCabinets, Event.log "Fetching documents...",
           Event.fetchByQuery "1" "Q", Event.log "Completed document fetching.",
           Event.log "Multiple matching documents found, tighten the fitler function."] :=
  execute_update_multiple_docs_halts "E" "X" "C" "Q" "1" none none none none
    c8Env ⟨"C", "1"⟩ [⟨some "1"⟩, ⟨some "2"⟩]
    (by decide) (by decide) (by decide) (by decide)
    rfl rfl rfl (by decide) (by decide) rfl

end Docuware
